import Mathlib

/-!
Verification of the LogiMint pattern-matching core.

This file shallowly embeds the pattern-matching and normalization engine of
the repository (src/utils/pattern_matcher.py, src/config/patterns.py,
the ComprehensiveEmailMapper.extract_case_numbers method, and the alias /
similarity helpers) as executable Lean definitions, and proves the spec
claims about them.

Modelling conventions:
  * Python strings are Lean `String` / `List Char`.  Texts are processed as
    `List Char` after normalization.
  * `unicodedata.normalize("NFKC", s)` is the identity on the ASCII texts the
    matcher operates on; it is modelled as the identity embedding of the text.
  * `str.lower` / `str.upper` / `str.title` are modelled for ASCII via
    explicit code-point arithmetic (`lowerC` / `upperC`), exactly as Python
    behaves on ASCII input.
  * Each compiled regular expression is embedded as a scanner
    `List Char → Option (payload × List Char)` that attempts a match at the
    head of the input and returns the payload of the match together with the
    rest of the input after the whole match.  The scanners are deterministic
    translations of the (backtracking-free on these patterns) regexes; the
    character classes `[A-Z]`, `[0-9]`, `[A-Z0-9]`, `[A-Z0-9\-]`, `\s` are
    embedded as explicit character-list membership (under `re.IGNORECASE`
    the latin class accepts both cases).
  * `re.findall` / `re.finditer` semantics (scan left to right, attempt a
    match at every position, continue after the end of a match, advance one
    character after a failed attempt) are embedded by `scanWith`, which uses
    the input length as structural fuel; every scanner consumes at least one
    character on success, so the fuel never runs out.
  * `\d` is embedded as the full Unicode decimal-digit category `Nd`
    (`isPyDigit`, Unicode 15.0), since Python matches non-ASCII digits there;
    `\s` gaps are embedded as ASCII whitespace — they are never captured, so
    they do not reach any output value.
-/

/-- ASCII lower-case letters, as an explicit character list (the class
`[a-z]`, and the lower half of `[A-Z]` under `re.IGNORECASE`). -/
def lowerLatinChars : List Char := ("abcdefghijklmnopqrstuvwxyz").toList

/-- ASCII upper-case letters. -/
def upperLatinChars : List Char := ("ABCDEFGHIJKLMNOPQRSTUVWXYZ").toList

/-- ASCII digits, the class `[0-9]` (also `\d` for ASCII text). -/
def digitChars : List Char := ("0123456789").toList

/-- ASCII whitespace recognized by Python `\s` and `str.strip`. -/
def spaceChars : List Char := [' ', '\t', '\n', '\r', '\x0b', '\x0c']

/-- The class `[A-Z]` under `re.IGNORECASE`: any ASCII letter. -/
def isLatin (c : Char) : Bool := decide (c ∈ lowerLatinChars) || decide (c ∈ upperLatinChars)

/-- The class `[0-9]`. -/
def isDigitC (c : Char) : Bool := decide (c ∈ digitChars)

/-- The class `[A-Z0-9]` under `re.IGNORECASE`. -/
def isAlnumC (c : Char) : Bool := isLatin c || isDigitC c

/-- The class `[A-Z0-9\-]` under `re.IGNORECASE`. -/
def isAlnumHyphen (c : Char) : Bool := isAlnumC c || decide (c = '-')

/-- Python `\s` on the ASCII range (the `\s* `gaps of the patterns are not
captured, so this approximation never reaches an output string). -/
def isSpaceC (c : Char) : Bool := decide (c ∈ spaceChars)

/-- The code-point ranges of Unicode general category `Nd` (decimal digits),
Unicode 15.0 — the table current CPython ships.  Python `\d` on `str`
patterns matches exactly these characters. -/
def ndDigitRanges : List (Char × Char) :=
  [(Char.ofNat 0x0030, Char.ofNat 0x0039), (Char.ofNat 0x0660, Char.ofNat 0x0669),
   (Char.ofNat 0x06F0, Char.ofNat 0x06F9), (Char.ofNat 0x07C0, Char.ofNat 0x07C9),
   (Char.ofNat 0x0966, Char.ofNat 0x096F), (Char.ofNat 0x09E6, Char.ofNat 0x09EF),
   (Char.ofNat 0x0A66, Char.ofNat 0x0A6F), (Char.ofNat 0x0AE6, Char.ofNat 0x0AEF),
   (Char.ofNat 0x0B66, Char.ofNat 0x0B6F), (Char.ofNat 0x0BE6, Char.ofNat 0x0BEF),
   (Char.ofNat 0x0C66, Char.ofNat 0x0C6F), (Char.ofNat 0x0CE6, Char.ofNat 0x0CEF),
   (Char.ofNat 0x0D66, Char.ofNat 0x0D6F), (Char.ofNat 0x0DE6, Char.ofNat 0x0DEF),
   (Char.ofNat 0x0E50, Char.ofNat 0x0E59), (Char.ofNat 0x0ED0, Char.ofNat 0x0ED9),
   (Char.ofNat 0x0F20, Char.ofNat 0x0F29), (Char.ofNat 0x1040, Char.ofNat 0x1049),
   (Char.ofNat 0x1090, Char.ofNat 0x1099), (Char.ofNat 0x17E0, Char.ofNat 0x17E9),
   (Char.ofNat 0x1810, Char.ofNat 0x1819), (Char.ofNat 0x1946, Char.ofNat 0x194F),
   (Char.ofNat 0x19D0, Char.ofNat 0x19D9), (Char.ofNat 0x1A80, Char.ofNat 0x1A89),
   (Char.ofNat 0x1A90, Char.ofNat 0x1A99), (Char.ofNat 0x1B50, Char.ofNat 0x1B59),
   (Char.ofNat 0x1BB0, Char.ofNat 0x1BB9), (Char.ofNat 0x1C40, Char.ofNat 0x1C49),
   (Char.ofNat 0x1C50, Char.ofNat 0x1C59), (Char.ofNat 0xA620, Char.ofNat 0xA629),
   (Char.ofNat 0xA8D0, Char.ofNat 0xA8D9), (Char.ofNat 0xA900, Char.ofNat 0xA909),
   (Char.ofNat 0xA9D0, Char.ofNat 0xA9D9), (Char.ofNat 0xA9F0, Char.ofNat 0xA9F9),
   (Char.ofNat 0xAA50, Char.ofNat 0xAA59), (Char.ofNat 0xABF0, Char.ofNat 0xABF9),
   (Char.ofNat 0xFF10, Char.ofNat 0xFF19), (Char.ofNat 0x104A0, Char.ofNat 0x104A9),
   (Char.ofNat 0x10D30, Char.ofNat 0x10D39), (Char.ofNat 0x11066, Char.ofNat 0x1106F),
   (Char.ofNat 0x110F0, Char.ofNat 0x110F9), (Char.ofNat 0x11136, Char.ofNat 0x1113F),
   (Char.ofNat 0x111D0, Char.ofNat 0x111D9), (Char.ofNat 0x112F0, Char.ofNat 0x112F9),
   (Char.ofNat 0x11450, Char.ofNat 0x11459), (Char.ofNat 0x114D0, Char.ofNat 0x114D9),
   (Char.ofNat 0x11650, Char.ofNat 0x11659), (Char.ofNat 0x116C0, Char.ofNat 0x116C9),
   (Char.ofNat 0x11730, Char.ofNat 0x11739), (Char.ofNat 0x118E0, Char.ofNat 0x118E9),
   (Char.ofNat 0x11950, Char.ofNat 0x11959), (Char.ofNat 0x11C50, Char.ofNat 0x11C59),
   (Char.ofNat 0x11D50, Char.ofNat 0x11D59), (Char.ofNat 0x11DA0, Char.ofNat 0x11DA9),
   (Char.ofNat 0x11F50, Char.ofNat 0x11F59), (Char.ofNat 0x16A60, Char.ofNat 0x16A69),
   (Char.ofNat 0x16AC0, Char.ofNat 0x16AC9), (Char.ofNat 0x16B50, Char.ofNat 0x16B59),
   (Char.ofNat 0x1D7CE, Char.ofNat 0x1D7FF), (Char.ofNat 0x1E140, Char.ofNat 0x1E149),
   (Char.ofNat 0x1E2F0, Char.ofNat 0x1E2F9), (Char.ofNat 0x1E4F0, Char.ofNat 0x1E4F9),
   (Char.ofNat 0x1E950, Char.ofNat 0x1E959), (Char.ofNat 0x1FBF0, Char.ofNat 0x1FBF9)]

/-- Python `\d` on `str` patterns: any Unicode decimal digit (general
category `Nd`).  Unlike the explicit `[0-9]` classes of the other patterns,
`\d` is not limited to ASCII: e.g. Arabic-Indic digits match it and survive
NFKC, `lower` and `strip` unchanged. -/
def isPyDigit (c : Char) : Bool :=
  ndDigitRanges.any (fun r => decide (r.1 ≤ c) && decide (c ≤ r.2))

/-- ASCII lower-casing of one character, as `str.lower` acts on ASCII. -/
def lowerC (c : Char) : Char :=
  if 'A' ≤ c ∧ c ≤ 'Z' then Char.ofNat (c.toNat + 32) else c

/-- ASCII upper-casing of one character, as `str.upper` acts on ASCII. -/
def upperC (c : Char) : Char :=
  if 'a' ≤ c ∧ c ≤ 'z' then Char.ofNat (c.toNat - 32) else c

/-- Drop leading and trailing whitespace, as Python `str.strip`. -/
def stripChars (cs : List Char) : List Char :=
  ((cs.dropWhile isSpaceC).reverse.dropWhile isSpaceC).reverse

/-- Match a literal character sequence at the head of the input, returning
the rest. -/
def stripLit : List Char → List Char → Option (List Char)
  | [], cs => some cs
  | _ :: _, [] => none
  | l :: ls, c :: cs => if c = l then stripLit ls cs else none

/-- Greedy `p+`: one or more characters satisfying `p`, with the rest. -/
def takeWhile1 (p : Char → Bool) (cs : List Char) : Option (List Char × List Char) :=
  if cs.takeWhile p = [] then none else some (cs.takeWhile p, cs.dropWhile p)

/-- Greedy `p{0,n}`: up to `n` characters satisfying `p`. -/
def takeAtMost : Nat → (Char → Bool) → List Char → List Char × List Char
  | 0, _, cs => ([], cs)
  | _ + 1, _, [] => ([], [])
  | n + 1, p, c :: cs =>
    if p c then
      let r := takeAtMost n p cs
      (c :: r.1, r.2)
    else ([], c :: cs)

/-- Run a scanner over the text with `re.findall` semantics: attempt a match
at every position, emit the payload and continue after each match, advance
one character after each failure.  `fuel` is the structural bound; it is
instantiated with the text length, which suffices because every scanner
consumes at least one character on success. -/
def scanWith {α : Type} (p : List Char → Option (α × List Char)) :
    Nat → List Char → List α
  | 0, _ => []
  | _ + 1, [] => []
  | fuel + 1, c :: cs =>
    match p (c :: cs) with
    | some (m, rest) => m :: scanWith p fuel rest
    | none => scanWith p fuel cs

/-- Run a scanner over a whole text. -/
def scanAll {α : Type} (p : List Char → Option (α × List Char)) (cs : List Char) : List α :=
  scanWith p cs.length cs

/-- Append an element unless it is already present. -/
def addUnique (acc : List String) (x : String) : List String :=
  if x ∈ acc then acc else acc ++ [x]

/-- Order-preserving, first-occurrence-wins deduplication (the behaviour of
the `if x not in acc: acc.append(x)` idiom). -/
def dedupKeepFirst (l : List String) : List String :=
  l.foldl addUnique []

/-- Build a `String` back from characters. -/
def strOfChars (cs : List Char) : String := String.mk cs

/-- Upper-case a character list, as Python `str.upper` on ASCII. -/
def upperChars (cs : List Char) : List Char := cs.map upperC

/-- Python string comparison `s1 <= s2`: code-point lexicographic order on
the character sequences (this is the order `sorted` sorts by). -/
def pyListLe : List Char → List Char → Bool
  | [], _ => true
  | _ :: _, [] => false
  | c1 :: t1, c2 :: t2 => decide (c1 < c2) || (decide (c1 = c2) && pyListLe t1 t2)

/-- Python string comparison `s1 < s2`: strict code-point lexicographic
order. -/
def pyListLt : List Char → List Char → Bool
  | [], [] => false
  | [], _ :: _ => true
  | _ :: _, [] => false
  | c1 :: t1, c2 :: t2 => decide (c1 < c2) || (decide (c1 = c2) && pyListLt t1 t2)

/-- The ascending order used by Python `sorted` on strings. -/
def pyStrLe (a b : String) : Prop := pyListLe a.data b.data = true

/-- The strict ascending order of Python strings. -/
def pyStrLt (a b : String) : Prop := pyListLt a.data b.data = true

instance : DecidableRel pyStrLe := fun a b => instDecidableEqBool (pyListLe a.data b.data) true

instance : DecidableRel pyStrLt := fun a b => instDecidableEqBool (pyListLt a.data b.data) true

/-!
Embedding of `src/config/patterns.py` and `src/utils/pattern_matcher.py`.
-/

/-- The raw pattern table `PATTERN_DEFINITIONS` of src/config/patterns.py. -/
def PATTERN_DEFINITIONS : List (String × String) :=
  [("HVDC_ADOPT", "HVDC-ADOPT-[A-Z]+-[0-9]\x7b3,5\x7d"),
   ("HVDC_GENERIC", "HVDC-[A-Z]+-[A-Z0-9]+-[A-Z0-9\\-]+"),
   ("JPTW_GRM", "JPTW-(\\d+)\\s*/\\s*GRM-(\\d+)"),
   ("PAREN_ANY", "\\(([^\\)]+)\\)"),
   ("TRAILING", ":\\s*([A-Z]+(?:-[A-Z0-9]+)\x7b2,\x7d)")]

/-- Scanner for `HVDC-ADOPT-[A-Z]+-[0-9]{3,5}` (no capture group, so the
payload is the whole matched text, as `findall` returns for this pattern).
The follow-set of each greedy piece is disjoint from its class, so the
deterministic greedy scan coincides with the backtracking regex. -/
def matchADOPT (cs : List Char) : Option (List Char × List Char) := do
  let r0 ← stripLit ("hvdc-adopt-").toList cs
  let (ls, r1) ← takeWhile1 isLatin r0
  let r2 ← stripLit ['-'] r1
  let (ds, r3) := takeAtMost 5 isDigitC r2
  if ds.length < 3 then none
  else some (("hvdc-adopt-").toList ++ ls ++ '-' :: ds, r3)

/-- Scanner for `HVDC-[A-Z]+-[A-Z0-9]+-[A-Z0-9\-]+` (payload: whole match). -/
def matchGENERIC (cs : List Char) : Option (List Char × List Char) := do
  let r0 ← stripLit ("hvdc-").toList cs
  let (a, r1) ← takeWhile1 isLatin r0
  let r2 ← stripLit ['-'] r1
  let (b, r3) ← takeWhile1 isAlnumC r2
  let r4 ← stripLit ['-'] r3
  let (c, r5) ← takeWhile1 isAlnumHyphen r4
  some (("hvdc-").toList ++ a ++ '-' :: b ++ '-' :: c, r5)

/-- Scanner for `JPTW-(\d+)\s*/\s*GRM-(\d+)`.  The payload is the value the
code builds from the two captured groups in
`matches.add(f"JPTW-{match.group(1)}/GRM-{match.group(2)}")` — the digit
groups spliced into the upper-case literal, not passed through `.upper()`.
The digit groups use `\d`, i.e. any Unicode decimal digit (`isPyDigit`). -/
def matchJPTW (cs : List Char) : Option (List Char × List Char) := do
  let r0 ← stripLit ("jptw-").toList cs
  let (d1, r1) ← takeWhile1 isPyDigit r0
  let r2 ← stripLit ['/'] (r1.dropWhile isSpaceC)
  let r3 ← stripLit ("grm-").toList (r2.dropWhile isSpaceC)
  let (d2, r4) ← takeWhile1 isPyDigit r3
  some (("JPTW-").toList ++ d1 ++ '/' :: ("GRM-").toList ++ d2, r4)

/-- Greedy `(?:-[A-Z0-9]+)*`: as many `-<alnum>` units as possible.  Returns
the unit count, the concatenated unit characters and the rest.  Fuel is the
input length; each unit consumes at least two characters. -/
def hyphenUnits : Nat → List Char → Nat × List Char × List Char
  | 0, cs => (0, [], cs)
  | fuel + 1, cs =>
    match stripLit ['-'] cs with
    | none => (0, [], cs)
    | some cs1 =>
      match takeWhile1 isAlnumC cs1 with
      | none => (0, [], cs)
      | some (t, r) =>
        let rest := hyphenUnits fuel r
        (rest.1 + 1, '-' :: t ++ rest.2.1, rest.2.2)

/-- Scanner for `:\s*([A-Z]+(?:-[A-Z0-9]+){2,})` (payload: the single capture
group, as `findall` returns for a one-group pattern; the rest is the input
after the whole match, whose end coincides with the group end). -/
def matchTRAILING (cs : List Char) : Option (List Char × List Char) := do
  let r0 ← stripLit [':'] cs
  let r1 := r0.dropWhile isSpaceC
  let (ls, r2) ← takeWhile1 isLatin r1
  let (n, us, r3) := hyphenUnits r2.length r2
  if n < 2 then none else some (ls ++ us, r3)

/-- Scanner for `\(([^\)]+)\)` (payload: the parenthesized interior). -/
def matchPARENANY (cs : List Char) : Option (List Char × List Char) := do
  let r0 ← stripLit ['('] cs
  let (t, r1) ← takeWhile1 (fun c => !decide (c = ')')) r0
  let r2 ← stripLit [')'] r1
  some (t, r2)

/-- The compiled-pattern registry `COMPILED_PATTERNS` of src/config/patterns.py:
the same five keys as `PATTERN_DEFINITIONS`, each mapped to the embedded
scanner of its compiled case-insensitive regex. -/
def COMPILED_PATTERNS : List (String × (List Char → Option (List Char × List Char))) :=
  [("HVDC_ADOPT", matchADOPT),
   ("HVDC_GENERIC", matchGENERIC),
   ("JPTW_GRM", matchJPTW),
   ("PAREN_ANY", matchPARENANY),
   ("TRAILING", matchTRAILING)]

/-- Embedding of `normalize_subject`: NFKC-normalize (identity on the ASCII
texts modelled here), strip, lower-case.  The `subject or ""` guard means a
`None` argument is treated as the empty string, so the input is an
`Option String`. -/
def normalize_subject (subject : Option String) : List Char :=
  (stripChars (subject.getD ("")).toList).map lowerC

/-- The list of canonical values `find_case_codes` inserts into its `matches`
set, in insertion order: upper-cased `HVDC_ADOPT` matches, upper-cased
`HVDC_GENERIC` matches, formatted `JPTW_GRM` values, upper-cased `TRAILING`
groups. -/
def caseCodeValues (text : Option String) : List String :=
  let work := normalize_subject text
  (scanAll matchADOPT work).map (fun m => strOfChars (upperChars m)) ++
  (scanAll matchGENERIC work).map (fun m => strOfChars (upperChars m)) ++
  (scanAll matchJPTW work).map strOfChars ++
  (scanAll matchTRAILING work).map (fun m => strOfChars (upperChars m))

/-- Embedding of `find_case_codes` (src/utils/pattern_matcher.py): the values
are collected into a Python `set` and returned through `sorted(matches)`.
`sorted` of a set is the ascending list of the distinct values, which is
modelled extensionally as an insertion sort of the order-preserving
deduplication of the inserted values. -/
def find_case_codes (text : Option String) : List String :=
  List.insertionSort pyStrLe (dedupKeepFirst (caseCodeValues text))

/-- Embedding of `find_case_codes` together with its `try ... except KeyError`
wrapper: the function looks up the four rule keys in `COMPILED_PATTERNS`; a
missing key (`KeyError`) would be re-raised as `PatternMatchError`, modelled
as the `Except.error` branch carrying the missing-key message. -/
def find_case_codesE (text : Option String) : Except String (List String) :=
  match List.lookup ("HVDC_ADOPT") COMPILED_PATTERNS,
      List.lookup ("HVDC_GENERIC") COMPILED_PATTERNS,
      List.lookup ("JPTW_GRM") COMPILED_PATTERNS,
      List.lookup ("TRAILING") COMPILED_PATTERNS with
  | some pa, some pg, some pj, some pt =>
    let work := normalize_subject text
    Except.ok (List.insertionSort pyStrLe (dedupKeepFirst (
      (scanAll pa work).map (fun m => strOfChars (upperChars m)) ++
      (scanAll pg work).map (fun m => strOfChars (upperChars m)) ++
      (scanAll pj work).map strOfChars ++
      (scanAll pt work).map (fun m => strOfChars (upperChars m)))))
  | _, _, _, _ => Except.error ("PatternMatchError: KeyError")

/-!
Embedding of the alias tables and the alias resolver
(`VENDOR_ALIASES` / `SITE_ALIASES` of src/config/patterns.py,
`match_vendor_alias` / `match_site_alias` of src/utils/pattern_matcher.py).
-/

/-- The vendor alias table `VENDOR_ALIASES`. -/
def VENDOR_ALIASES : List (String × String) :=
  [("he", "Hitachi Energy"),
   ("hitachi energy", "Hitachi Energy"),
   ("hitachi", "Hitachi Energy"),
   ("sct", "Samsung C&T"),
   ("samsung c&t", "Samsung C&T"),
   ("mosb", "MOSB"),
   ("als", "ALS")]

/-- The site alias table `SITE_ALIASES`. -/
def SITE_ALIASES : List (String × String) :=
  [("das", "DAS Site"),
   ("agi", "AGI Site"),
   ("mir", "MIR Site"),
   ("mirfa", "MIRFA Site"),
   ("ghallan", "GHALLAN Site")]

/-- Python `str.title` on ASCII: the first cased character of every run of
letters is upper-cased, the following letters are lower-cased; the boolean
state records whether the previous character was a letter. -/
def titleAux : Bool → List Char → List Char
  | _, [] => []
  | prevAlpha, c :: cs =>
    if isLatin c then
      (if prevAlpha then lowerC c else upperC c) :: titleAux true cs
    else
      c :: titleAux false cs

/-- Python `str.title` on ASCII. -/
def titleChars (cs : List Char) : List Char := titleAux false cs

/-- Embedding of `match_vendor_alias`: look the normalized alias up in
`VENDOR_ALIASES`, falling back to `alias.strip().title()`. -/
def match_vendor_alias (tok : String) : String :=
  match List.lookup (strOfChars (normalize_subject (some tok))) VENDOR_ALIASES with
  | some v => v
  | none => strOfChars (titleChars (stripChars tok.toList))

/-- Embedding of `match_site_alias`: look the normalized alias up in
`SITE_ALIASES`, falling back to `alias.strip().upper()`. -/
def match_site_alias (tok : String) : String :=
  match List.lookup (strOfChars (normalize_subject (some tok))) SITE_ALIASES with
  | some v => v
  | none => strOfChars (upperChars (stripChars tok.toList))

/-!
Embedding of `score_similarity` (src/utils/pattern_matcher.py):
`round(difflib.SequenceMatcher(a=left', b=right').ratio(), 4)` on the
normalized inputs.  `SequenceMatcher` is constructed without an `isjunk`
argument, so the junk set `bjunk` is empty and the two junk-extension loops
of `find_longest_match` are dead code (their guards require a junk
character); the `autojunk` popular-element filter is modelled.  Rationals
stand in for Python floats; `round(x, 4)` is modelled with mathematical
rounding (the two agree away from exact half-ulp ties, and on every value
appearing in the theorems below).
-/

/-- Indices at which `c` occurs in `b`, ascending (difflib `b2j` entries). -/
def positionsOf (c : Char) (b : List Char) : List Nat :=
  (b.enum.filter (fun p => p.2 = c)).map (fun p => p.1)

/-- The `autojunk` popular elements of `b`: when `len(b) >= 200`, characters
occurring more than `len(b) // 100 + 1` times are dropped from `b2j`. -/
def popularChars (b : List Char) : List Char :=
  if b.length < 200 then []
  else b.dedup.filter (fun c => b.length / 100 + 1 < b.count c)

/-- difflib `b2j` lookup: occurrence positions of `c` in `b`, with popular
characters removed. -/
def b2j (b : List Char) (c : Char) : List Nat :=
  if c ∈ popularChars b then [] else positionsOf c b

/-- Default lookup in an association list of naturals (Python
`dict.get(k, 0)`). -/
def lookupD (l : List (Nat × Nat)) (k : Nat) : Nat := (List.lookup k l).getD 0

/-- One inner loop of difflib `find_longest_match`: for each `j` position of
`a[i]` in `b` (ascending; positions below `blo` skipped, the loop breaks at
`bhi`), the run length `k = j2len[j-1] + 1` is recorded in the new row and
the best block `(besti, bestj, bestsize)` is updated when `k` is strictly
larger. -/
def flmRow (blo bhi i : Nat) (j2len : List (Nat × Nat)) :
    List Nat → List (Nat × Nat) → Nat × Nat × Nat → List (Nat × Nat) × (Nat × Nat × Nat)
  | [], acc, best => (acc, best)
  | j :: js, acc, best =>
    if j < blo then flmRow blo bhi i j2len js acc best
    else if bhi ≤ j then (acc, best)
    else
      let k := (if j = 0 then 0 else lookupD j2len (j - 1)) + 1
      let best' := if best.2.2 < k then (i + 1 - k, j + 1 - k, k) else best
      flmRow blo bhi i j2len js ((j, k) :: acc) best'

/-- The outer loop of difflib `find_longest_match` over the rows
`i = alo, ..., ahi-1`. -/
def flmRows (bj : Char → List Nat) (blo bhi : Nat) :
    List (Nat × Char) → List (Nat × Nat) → Nat × Nat × Nat → Nat × Nat × Nat
  | [], _, best => best
  | (i, c) :: rest, j2len, best =>
    let step := flmRow blo bhi i j2len (bj c) [] best
    flmRows bj blo bhi rest step.1 step.2

/-- Backward extension of the best block over equal (non-junk, and the junk
set is empty) characters. -/
def extendBack (a b : List Char) (alo blo : Nat) :
    Nat → Nat × Nat × Nat → Nat × Nat × Nat
  | 0, best => best
  | fuel + 1, (besti, bestj, k) =>
    if alo < besti ∧ blo < bestj ∧
        a.getD (besti - 1) ' ' = b.getD (bestj - 1) ' ' then
      extendBack a b alo blo fuel (besti - 1, bestj - 1, k + 1)
    else (besti, bestj, k)

/-- Forward extension of the best block over equal characters. -/
def extendFwd (a b : List Char) (ahi bhi : Nat) :
    Nat → Nat × Nat × Nat → Nat × Nat × Nat
  | 0, best => best
  | fuel + 1, (besti, bestj, k) =>
    if besti + k < ahi ∧ bestj + k < bhi ∧
        a.getD (besti + k) ' ' = b.getD (bestj + k) ' ' then
      extendFwd a b ahi bhi fuel (besti, bestj, k + 1)
    else (besti, bestj, k)

/-- difflib `find_longest_match` on `a[alo:ahi]` × `b[blo:bhi]`: the dynamic
programming scan (earliest-in-`a`, then earliest-in-`b` tie-breaking through
the strict `k > bestsize` update), followed by the two extension loops. -/
def find_longest_match (a b : List Char) (alo ahi blo bhi : Nat) : Nat × Nat × Nat :=
  let rows := a.enum.filter (fun p => alo ≤ p.1 ∧ p.1 < ahi)
  let best := flmRows (b2j b) blo bhi rows [] (alo, blo, 0)
  extendFwd a b ahi bhi ahi (extendBack a b alo blo (best.2.2 + ahi) best)

/-- Total size of difflib's matching blocks for `a[alo:ahi]` × `b[blo:bhi]`:
the size of the longest match plus, recursively, the totals of the regions
before and after it (difflib `get_matching_blocks`; block merging does not
change the total).  The fuel dominates the region sizes, which shrink
strictly at every split. -/
def matchTotal (a b : List Char) : Nat → Nat → Nat → Nat → Nat → Nat
  | 0, _, _, _, _ => 0
  | fuel + 1, alo, ahi, blo, bhi =>
    let best := find_longest_match a b alo ahi blo bhi
    let i := best.1
    let j := best.2.1
    let k := best.2.2
    if k = 0 then 0
    else matchTotal a b fuel alo i blo j + k + matchTotal a b fuel (i + k) ahi (j + k) bhi

/-- difflib `ratio`: `2.0 * M / T` where `M` is the total matching-block
size and `T` the summed lengths (`1.0` when both sequences are empty). -/
def ratio (a b : List Char) : ℚ :=
  let m : ℚ := matchTotal a b (a.length + b.length + 1) 0 a.length 0 b.length
  if a.length + b.length = 0 then 1
  else 2 * m / (a.length + b.length : ℚ)

/-- Python `round(x, 4)` (mathematical rounding; agrees with Python away
from exact half-ulp ties). -/
def round4 (q : ℚ) : ℚ := (round (q * 10000) : ℚ) / 10000

/-- Embedding of `score_similarity`: the rounded `SequenceMatcher` ratio of
the two normalized inputs. -/
def score_similarity (left right : String) : ℚ :=
  round4 (ratio (normalize_subject (some left)) (normalize_subject (some right)))

/-!
Embedding of `ComprehensiveEmailMapper.extract_case_numbers`
(src/unnamed/part_000): five patterns applied to the upper-cased subject,
each appending its canonical code unless already present (first-occurrence
deduplication).
-/

/-- Scanner for mapper pattern 1, `HVDC-ADOPT-([A-Z]+)-([A-Z0-9\-]+)`
(payload: the two capture groups). -/
def matchCM1 (cs : List Char) : Option ((List Char × List Char) × List Char) := do
  let r0 ← stripLit ("HVDC-ADOPT-").toList cs
  let (g1, r1) ← takeWhile1 isLatin r0
  let r2 ← stripLit ['-'] r1
  let (g2, r3) ← takeWhile1 isAlnumHyphen r2
  some ((g1, g2), r3)

/-- Scanner for mapper pattern 2, `HVDC-([A-Z]+)-([A-Z]+)-([A-Z0-9\-]+)`
(payload: the three capture groups). -/
def matchCM2 (cs : List Char) : Option ((List Char × List Char × List Char) × List Char) := do
  let r0 ← stripLit ("HVDC-").toList cs
  let (g1, r1) ← takeWhile1 isLatin r0
  let r2 ← stripLit ['-'] r1
  let (g2, r3) ← takeWhile1 isLatin r2
  let r4 ← stripLit ['-'] r3
  let (g3, r5) ← takeWhile1 isAlnumHyphen r4
  some ((g1, g2, g3), r5)

/-- Scanner for mapper pattern 3 (inner),
`([A-Z]+)-([0-9]+(?:-[0-9A-Z]+)?)`: vendor letters, then digits optionally
followed by one `-<alnum>` unit (the optional unit is taken greedily when it
is present). -/
def matchCM3inner (cs : List Char) : Option ((List Char × List Char) × List Char) := do
  let (g1, r1) ← takeWhile1 isLatin cs
  let r2 ← stripLit ['-'] r1
  let (ds, r3) ← takeWhile1 isDigitC r2
  match stripLit ['-'] r3 with
  | some r4 =>
    match takeWhile1 isAlnumC r4 with
    | some (t, r5) => some ((g1, ds ++ '-' :: t), r5)
    | none => some ((g1, ds), r3)
  | none => some ((g1, ds), r3)

/-- The lazy gap `.*?` of mapper pattern 4: try the tail scanner at every
position, consuming only non-newline characters, taking the earliest
success. -/
def lazyFind {α : Type} (tail : List Char → Option (α × List Char)) :
    Nat → List Char → Option (α × List Char)
  | 0, _ => none
  | fuel + 1, cs =>
    match tail cs with
    | some r => some r
    | none =>
      match cs with
      | [] => none
      | c :: cs1 => if c = '\n' then none else lazyFind tail fuel cs1

/-- The tail of mapper pattern 4: `(JPTW-(\d+))\s*/\s*(GRM-(\d+))`
(payload: groups 2 and 4, the two digit runs, which are what the code
splices into the composite value). -/
def matchCM4tail (cs : List Char) : Option ((List Char × List Char) × List Char) := do
  let r0 ← stripLit ("JPTW-").toList cs
  let (d1, r1) ← takeWhile1 isPyDigit r0
  let r2 ← stripLit ['/'] (r1.dropWhile isSpaceC)
  let r3 ← stripLit ("GRM-").toList (r2.dropWhile isSpaceC)
  let (d2, r4) ← takeWhile1 isPyDigit r3
  some ((d1, d2), r4)

/-- Scanner for mapper pattern 4,
`\[HVDC-AGI\].*?(JPTW-(\d+))\s*/\s*(GRM-(\d+))`. -/
def matchCM4 (cs : List Char) : Option ((List Char × List Char) × List Char) := do
  let r0 ← stripLit ("[HVDC-AGI]").toList cs
  lazyFind matchCM4tail (r0.length + 1) r0

/-- Scanner for mapper pattern 5,
`:\s*([A-Z]+-[A-Z]+-[A-Z]+\d+-[A-Z]+\d+)` (payload: the capture group). -/
def matchCM5 (cs : List Char) : Option (List Char × List Char) := do
  let r0 ← stripLit [':'] cs
  let r1 := r0.dropWhile isSpaceC
  let (l1, r2) ← takeWhile1 isLatin r1
  let r3 ← stripLit ['-'] r2
  let (l2, r4) ← takeWhile1 isLatin r3
  let r5 ← stripLit ['-'] r4
  let (l3, r6) ← takeWhile1 isLatin r5
  let (d3, r7) ← takeWhile1 isPyDigit r6
  let r8 ← stripLit ['-'] r7
  let (l4, r9) ← takeWhile1 isLatin r8
  let (d4, r10) ← takeWhile1 isPyDigit r9
  some (l1 ++ '-' :: l2 ++ '-' :: l3 ++ d3 ++ '-' :: l4 ++ d4, r10)

/-- Find the closing parenthesis of a lazy `\(.*?\)` match: the rest of the
input after the first `)`; `.` does not cross a newline. -/
def findClose : List Char → Option (List Char)
  | [] => none
  | ')' :: r => some r
  | '\n' :: _ => none
  | _ :: r => findClose r

/-- Python `re.sub(r'\(.*?\)', '', s)`: every lazily matched parenthetical is
deleted, characters outside matches are kept. -/
def removeParens : Nat → List Char → List Char
  | 0, cs => cs
  | fuel + 1, cs =>
    match cs with
    | [] => []
    | '(' :: rest =>
      match findClose rest with
      | some rest1 => removeParens fuel rest1
      | none => '(' :: removeParens fuel rest
    | c :: rest => c :: removeParens fuel rest

/-- The canonical code built from a mapper pattern-1 match:
`f"HVDC-ADOPT-{match[0].upper()}-{match[1]}"`. -/
def fmtCM1 (g : List Char × List Char) : String :=
  strOfChars (("HVDC-ADOPT-").toList ++ upperChars g.1 ++ '-' :: g.2)

/-- The canonical code from a mapper pattern-2 match:
`f"HVDC-{site.upper()}-{vendor.upper()}-{num}"`. -/
def fmtCM2 (g : List Char × List Char × List Char) : String :=
  strOfChars (("HVDC-").toList ++ upperChars g.1 ++ '-' :: upperChars g.2.1 ++ '-' :: g.2.2)

/-- The canonical code from a mapper pattern-3 inner match:
`f"HVDC-ADOPT-{vendor.upper()}-{num}"`. -/
def fmtCM3 (g : List Char × List Char) : String :=
  strOfChars (("HVDC-ADOPT-").toList ++ upperChars g.1 ++ '-' :: g.2)

/-- The composite code from a mapper pattern-4 match:
`f"HVDC-AGI-JPTW{jptw}-GRM{grm}".upper()`. -/
def fmtCM4 (g : List Char × List Char) : String :=
  strOfChars (upperChars (("HVDC-AGI-JPTW").toList ++ g.1 ++ ("-GRM").toList ++ g.2))

/-- The cleaned code from a mapper pattern-5 match:
`re.sub(r'\(.*?\)', '', match).strip().upper()`. -/
def fmtCM5 (g : List Char) : String :=
  strOfChars (upperChars (stripChars (removeParens g.length g)))

/-- The codes contributed by mapper pattern 3: every parenthesized group is
re-scanned for `<VENDOR>-<NUMBER>` sub-tokens, each expanding independently. -/
def parenSubTokens (up : List Char) : List (List Char × List Char) :=
  (scanAll matchPARENANY up).flatMap (fun inner => scanAll matchCM3inner inner)

/-- Embedding of `ComprehensiveEmailMapper.extract_case_numbers`: empty (or
`None`, i.e. falsy) subjects return `[]`; otherwise the subject is
upper-cased and the five patterns contribute their canonical codes in
pattern order, then match order, each appended only if not already present. -/
def extract_case_numbers (subject : String) : List String :=
  if subject.toList = [] then []
  else
    let up := upperChars subject.toList
    (((scanAll matchCM1 up).map fmtCM1 ++
      (scanAll matchCM2 up).map fmtCM2 ++
      (parenSubTokens up).map fmtCM3 ++
      (scanAll matchCM4 up).map fmtCM4 ++
      (scanAll matchCM5 up).map fmtCM5).foldl addUnique [])

/-!
Spec-modelled extractor for the PRL rule.  The repository modules
`hvdc/extractors/case.py` and `hvdc/core/regex.py` are exercised by the unit
tests under `hvdc_refactor_s1s2 (1)/tests (1)` but are not present in the
source tree; the extractor they implement is modelled here from the spec.
-/

/-- Modelled from the spec: the `PRL` rule of §4.1 (rule 6), whose
implementation (`hvdc/core/regex.py`, `COMPILED["PRL"]`) is missing from the
source tree.  A PRL internal reference code is the literal `PRL-` followed
by hyphen-joined alphanumeric segments, where the suffix may carry a
trailing parenthetical short code; the canonical form preserves the full
string including the parenthetical suffix as a single token. -/
def matchPRLspec (cs : List Char) : Option (List Char × List Char) := do
  let r0 ← stripLit ("prl-").toList cs
  let (body, r1) ← takeWhile1 isAlnumHyphen r0
  match matchPARENANY r1 with
  | some (inner, r2) => some (("prl-").toList ++ body ++ '(' :: inner ++ [')'], r2)
  | none => some (("prl-").toList ++ body, r1)

/-- Modelled from the spec: the `PAREN_DERIVED` sub-token rule of §4.1
(rule 3): inside a parenthesized group, each `<VENDOR>-<NUMBER>` sub-token
(vendor = letters, number = digits optionally followed by `-<alphanumeric>`)
expands independently into `HVDC-ADOPT-<VENDOR>-<NUMBER>`. -/
def parenDerivedSpec (work : List Char) : List String :=
  ((scanAll matchPARENANY work).flatMap (fun inner => scanAll matchCM3inner inner)).map
    (fun g => strOfChars (upperChars (("hvdc-adopt-").toList ++ g.1 ++ '-' :: g.2)))

/-- Modelled from the spec: `extract_cases` of the missing module
`hvdc/extractors/case.py` (§4.1, §4.2, §4.4): every registered rule is run
against the normalized text in registration order (HVDC_ADOPT,
HVDC_GENERIC, PAREN_DERIVED, JPTW_GRM, TRAILING, PRL); each raw match is
canonicalized to an upper-case code; the ordered results are deduplicated
first-occurrence-first. -/
def extract_cases_spec (text : String) : List String :=
  let work := normalize_subject (some text)
  dedupKeepFirst (
    (scanAll matchADOPT work).map (fun m => strOfChars (upperChars m)) ++
    (scanAll matchGENERIC work).map (fun m => strOfChars (upperChars m)) ++
    parenDerivedSpec work ++
    (scanAll matchJPTW work).map strOfChars ++
    (scanAll matchTRAILING work).map (fun m => strOfChars (upperChars m)) ++
    (scanAll matchPRLspec work).map (fun m => strOfChars (upperChars m)))

/-!
Helper lemmas about the embedding.
-/

theorem mem_addUnique {acc : List String} {x y : String} :
    y ∈ addUnique acc x ↔ y ∈ acc ∨ y = x := by
  unfold addUnique
  split
  · constructor
    · exact Or.inl
    · rintro (h | rfl)
      · exact h
      · assumption
  · simp [List.mem_append]

theorem nodup_addUnique {acc : List String} {x : String} (h : acc.Nodup) :
    (addUnique acc x).Nodup := by
  unfold addUnique
  split
  · exact h
  · simp_all [List.nodup_append]

theorem mem_foldl_addUnique (l : List String) :
    ∀ acc y, y ∈ l.foldl addUnique acc ↔ y ∈ acc ∨ y ∈ l := by
  induction l with
  | nil => simp
  | cons x xs ih =>
    intro acc y
    simp only [List.foldl_cons, ih, mem_addUnique, List.mem_cons]
    tauto

theorem nodup_foldl_addUnique (l : List String) :
    ∀ acc, acc.Nodup → (l.foldl addUnique acc).Nodup := by
  induction l with
  | nil => exact fun _ h => h
  | cons x xs ih =>
    intro acc h
    exact ih _ (nodup_addUnique h)

theorem mem_dedupKeepFirst {l : List String} {y : String} :
    y ∈ dedupKeepFirst l ↔ y ∈ l := by
  unfold dedupKeepFirst
  simp [mem_foldl_addUnique]

theorem nodup_dedupKeepFirst (l : List String) : (dedupKeepFirst l).Nodup :=
  nodup_foldl_addUnique l [] List.nodup_nil

theorem takeWhile1_chars {p : Char → Bool} {cs t r : List Char}
    (h : takeWhile1 p cs = some (t, r)) : ∀ c ∈ t, p c = true := by
  unfold takeWhile1 at h
  split at h
  · exact absurd h (by simp)
  · obtain ⟨rfl, rfl⟩ : cs.takeWhile p = t ∧ cs.dropWhile p = r := by
      injection h with h1
      injection h1 with h2 h3
      exact ⟨h2, h3⟩
    exact fun c hc => List.mem_takeWhile_imp hc

theorem takeAtMost_chars (p : Char → Bool) :
    ∀ (n : Nat) (cs : List Char), ∀ c ∈ (takeAtMost n p cs).1, p c = true := by
  intro n
  induction n with
  | zero => intro cs; simp [takeAtMost]
  | succ n ih =>
    intro cs
    cases cs with
    | nil => simp [takeAtMost]
    | cons c0 cs0 =>
      simp only [takeAtMost]
      split
      · intro c hc
        rcases List.mem_cons.mp hc with rfl | hc
        · assumption
        · exact ih cs0 c hc
      · simp

theorem scanWith_forall {α : Type} {p : List Char → Option (α × List Char)} {P : α → Prop}
    (hp : ∀ cs m r, p cs = some (m, r) → P m) :
    ∀ (fuel : Nat) (cs : List Char), ∀ m ∈ scanWith p fuel cs, P m := by
  intro fuel
  induction fuel with
  | zero => intro cs; simp [scanWith]
  | succ fuel ih =>
    intro cs
    cases cs with
    | nil => simp [scanWith]
    | cons c cs0 =>
      simp only [scanWith]
      cases h : p (c :: cs0) with
      | none => exact ih cs0
      | some res =>
        intro m hm
        rcases List.mem_cons.mp hm with rfl | hm
        · exact hp _ _ _ h
        · exact ih res.2 m hm

theorem scanAll_forall {α : Type} {p : List Char → Option (α × List Char)} {P : α → Prop}
    (hp : ∀ cs m r, p cs = some (m, r) → P m) (cs : List Char) :
    ∀ m ∈ scanAll p cs, P m :=
  scanWith_forall hp cs.length cs

/-- The character alphabet of canonical codes: upper-case ASCII letters,
digits, hyphen, and the slash of the `JPTW-n/GRM-m` pair form. -/
def okCaseChars : List Char := upperLatinChars ++ digitChars ++ ['-', '/']

theorem isLatin_isAlnumHyphen {c : Char} (h : isLatin c = true) : isAlnumHyphen c = true := by
  simp [isAlnumHyphen, isAlnumC, h]

theorem isDigitC_isAlnumHyphen {c : Char} (h : isDigitC c = true) : isAlnumHyphen c = true := by
  simp [isAlnumHyphen, isAlnumC, h]

theorem isAlnumC_isAlnumHyphen {c : Char} (h : isAlnumC c = true) : isAlnumHyphen c = true := by
  simp [isAlnumHyphen, h]

theorem upperC_ok_of_isAlnumHyphen {c : Char} (h : isAlnumHyphen c = true) :
    upperC c ∈ okCaseChars := by
  have hcases : c ∈ lowerLatinChars ∨ c ∈ upperLatinChars ∨ c ∈ digitChars ∨ c = '-' := by
    simpa [isAlnumHyphen, isAlnumC, isLatin, isDigitC, or_assoc] using h
  have hlo : ∀ c0 ∈ lowerLatinChars, upperC c0 ∈ okCaseChars := by decide
  have hup : ∀ c0 ∈ upperLatinChars, upperC c0 ∈ okCaseChars := by decide
  have hdi : ∀ c0 ∈ digitChars, upperC c0 ∈ okCaseChars := by decide
  rcases hcases with h | h | h | rfl
  · exact hlo c h
  · exact hup c h
  · exact hdi c h
  · decide

theorem matchADOPT_chars {cs m r : List Char} (h : matchADOPT cs = some (m, r)) :
    ∀ c ∈ m, isAlnumHyphen c = true := by
  unfold matchADOPT at h
  simp only [bind, Option.bind_eq_some] at h
  obtain ⟨r0, h0, h⟩ := h
  obtain ⟨⟨ls, r1⟩, h1, h⟩ := h
  obtain ⟨r2, h2, h⟩ := h
  cases htam : takeAtMost 5 isDigitC r2 with
  | mk ds r3 =>
    rw [htam] at h
    split at h
    · exact absurd h (by simp)
    · simp only [Option.some.injEq, Prod.mk.injEq] at h
      obtain ⟨rfl, rfl⟩ := h
      intro c hc
      have hlit : ∀ c0 ∈ ("hvdc-adopt-").toList, isAlnumHyphen c0 = true := by decide
      rcases List.mem_append.mp hc with hc | hc
      · rcases List.mem_append.mp hc with hc | hc
        · exact hlit c hc
        · exact isLatin_isAlnumHyphen (takeWhile1_chars h1 c hc)
      · rcases List.mem_cons.mp hc with rfl | hc
        · decide
        · have := takeAtMost_chars isDigitC 5 r2
          rw [htam] at this
          exact isDigitC_isAlnumHyphen (this c hc)

theorem matchGENERIC_chars {cs m r : List Char} (h : matchGENERIC cs = some (m, r)) :
    ∀ c ∈ m, isAlnumHyphen c = true := by
  unfold matchGENERIC at h
  simp only [bind, Option.bind_eq_some] at h
  obtain ⟨r0, h0, h⟩ := h
  obtain ⟨⟨a, r1⟩, h1, h⟩ := h
  obtain ⟨r2, h2, h⟩ := h
  obtain ⟨⟨b, r3⟩, h3, h⟩ := h
  obtain ⟨r4, h4, h⟩ := h
  obtain ⟨⟨c0, r5⟩, h5, h⟩ := h
  simp only [Option.some.injEq, Prod.mk.injEq] at h
  obtain ⟨rfl, rfl⟩ := h
  intro c hc
  have hlit : ∀ x ∈ ("hvdc-").toList, isAlnumHyphen x = true := by decide
  rcases List.mem_append.mp hc with hc | hc
  · rcases List.mem_append.mp hc with hc | hc
    · rcases List.mem_append.mp hc with hc | hc
      · exact hlit c hc
      · exact isLatin_isAlnumHyphen (takeWhile1_chars h1 c hc)
    · rcases List.mem_cons.mp hc with rfl | hc
      · decide
      · exact isAlnumC_isAlnumHyphen (takeWhile1_chars h3 c hc)
  · rcases List.mem_cons.mp hc with rfl | hc
    · decide
    · exact takeWhile1_chars h5 c hc

/-- The alphabet of `find_case_codes` outputs: upper-case ASCII letters,
Unicode decimal digits (ASCII digits everywhere; non-ASCII ones only from
the `\d` groups of the JPTW/GRM rule), hyphen and slash. -/
def okCodeChar (c : Char) : Prop :=
  c ∈ upperLatinChars ∨ isPyDigit c = true ∨ c = '-' ∨ c = '/'

instance (c : Char) : Decidable (okCodeChar c) := by
  unfold okCodeChar
  infer_instance

theorem okCaseChars_code : ∀ c ∈ okCaseChars, okCodeChar c := by decide

theorem isPyDigit_bounds {c : Char} (h : isPyDigit c = true) :
    ∃ r ∈ ndDigitRanges, r.1 ≤ c ∧ c ≤ r.2 := by
  simpa only [isPyDigit, List.any_eq_true, Bool.and_eq_true, decide_eq_true_eq] using h

theorem isPyDigit_lowerC {c : Char} (h : isPyDigit c = true) : lowerC c = c := by
  obtain ⟨r, hr, h1, h2⟩ := isPyDigit_bounds h
  have hd : ∀ r0 ∈ ndDigitRanges, r0.2 < 'A' ∨ 'Z' < r0.1 := by decide
  unfold lowerC
  refine if_neg ?_
  rintro ⟨hA, hZ⟩
  rcases hd r hr with hlt | hlt
  · exact absurd hA (not_le.mpr (lt_of_le_of_lt h2 hlt))
  · exact absurd hZ (not_le.mpr (lt_of_lt_of_le hlt h1))

theorem isPyDigit_not_lowerLatin {c : Char} (h : isPyDigit c = true) :
    c ∉ lowerLatinChars := by
  obtain ⟨r, hr, h1, h2⟩ := isPyDigit_bounds h
  have hd : ∀ r0 ∈ ndDigitRanges, r0.2 < 'a' ∨ 'z' < r0.1 := by decide
  intro hmem
  have hb : ∀ x ∈ lowerLatinChars, 'a' ≤ x ∧ x ≤ 'z' := by decide
  obtain ⟨ha, hz⟩ := hb c hmem
  rcases hd r hr with hlt | hlt
  · exact absurd ha (not_le.mpr (lt_of_le_of_lt h2 hlt))
  · exact absurd hz (not_le.mpr (lt_of_lt_of_le hlt h1))

theorem okCodeChar_cases {c : Char} (h : okCodeChar c) :
    c ∈ upperLatinChars ∨ (lowerC c = c ∧ c ∉ lowerLatinChars) := by
  rcases h with h | h | rfl | rfl
  · exact Or.inl h
  · exact Or.inr ⟨isPyDigit_lowerC h, isPyDigit_not_lowerLatin h⟩
  · exact Or.inr ⟨by decide, by decide⟩
  · exact Or.inr ⟨by decide, by decide⟩

theorem okCodeChar_not_space {c : Char} (h : okCodeChar c) : isSpaceC c = false := by
  rcases h with h | h | rfl | rfl
  · have hup : ∀ x ∈ upperLatinChars, isSpaceC x = false := by decide
    exact hup c h
  · by_cases hc : c ∈ spaceChars
    · have hsp : ∀ x ∈ spaceChars, isPyDigit x = false := by decide
      rw [hsp c hc] at h
      exact absurd h (by simp)
    · simp [isSpaceC, hc]
  · decide
  · decide

theorem matchJPTW_chars {cs m r : List Char} (h : matchJPTW cs = some (m, r)) :
    ∀ c ∈ m, okCodeChar c := by
  unfold matchJPTW at h
  simp only [bind, Option.bind_eq_some] at h
  obtain ⟨r0, h0, h⟩ := h
  obtain ⟨⟨d1, r1⟩, h1, h⟩ := h
  obtain ⟨r2, h2, h⟩ := h
  obtain ⟨r3, h3, h⟩ := h
  obtain ⟨⟨d2, r4⟩, h4, h⟩ := h
  simp only [Option.some.injEq, Prod.mk.injEq] at h
  obtain ⟨rfl, rfl⟩ := h
  intro c hc
  have hj : ∀ x ∈ ("JPTW-").toList, okCodeChar x := by decide
  have hg : ∀ x ∈ ("GRM-").toList, okCodeChar x := by decide
  rcases List.mem_append.mp hc with hc | hc
  · rcases List.mem_append.mp hc with hc | hc
    · rcases List.mem_append.mp hc with hc | hc
      · exact hj c hc
      · exact Or.inr (Or.inl (takeWhile1_chars h1 c hc))
    · rcases List.mem_cons.mp hc with rfl | hc
      · decide
      · exact hg c hc
  · exact Or.inr (Or.inl (takeWhile1_chars h4 c hc))

theorem hyphenUnits_chars :
    ∀ (fuel : Nat) (cs : List Char), ∀ c ∈ (hyphenUnits fuel cs).2.1, isAlnumHyphen c = true := by
  intro fuel
  induction fuel with
  | zero => intro cs; simp [hyphenUnits]
  | succ fuel ih =>
    intro cs
    cases h0 : stripLit ['-'] cs with
    | none => simp [hyphenUnits, h0]
    | some cs1 =>
      cases h1 : takeWhile1 isAlnumC cs1 with
      | none => simp [hyphenUnits, h0, h1]
      | some tr =>
        obtain ⟨t, r⟩ := tr
        simp only [hyphenUnits, h0, h1]
        intro c hc
        rcases List.mem_append.mp hc with hc | hc
        · rcases List.mem_cons.mp hc with rfl | hc
          · decide
          · exact isAlnumC_isAlnumHyphen (takeWhile1_chars h1 c hc)
        · exact ih r c hc

theorem matchTRAILING_chars {cs m r : List Char} (h : matchTRAILING cs = some (m, r)) :
    ∀ c ∈ m, isAlnumHyphen c = true := by
  unfold matchTRAILING at h
  simp only [bind, Option.bind_eq_some] at h
  obtain ⟨r0, h0, h⟩ := h
  obtain ⟨⟨ls, r2⟩, h1, h⟩ := h
  cases hu : hyphenUnits r2.length r2 with
  | mk n usr =>
    obtain ⟨us, r3⟩ := usr
    rw [hu] at h
    split at h
    · exact absurd h (by simp)
    · simp only [Option.some.injEq, Prod.mk.injEq] at h
      obtain ⟨rfl, rfl⟩ := h
      intro c hc
      rcases List.mem_append.mp hc with hc | hc
      · exact isLatin_isAlnumHyphen (takeWhile1_chars h1 c hc)
      · have := hyphenUnits_chars r2.length r2
        rw [hu] at this
        exact this c hc

theorem upperChars_ok {m : List Char} (hm : ∀ c ∈ m, isAlnumHyphen c = true) :
    ∀ c ∈ upperChars m, c ∈ okCaseChars := by
  intro c hc
  obtain ⟨c0, hc0, rfl⟩ := List.mem_map.mp hc
  exact upperC_ok_of_isAlnumHyphen (hm c0 hc0)

theorem caseCodeValues_chars {t : Option String} {s : String}
    (hs : s ∈ caseCodeValues t) : ∀ c ∈ s.data, okCodeChar c := by
  unfold caseCodeValues at hs
  rcases List.mem_append.mp hs with hs | hs
  · rcases List.mem_append.mp hs with hs | hs
    · rcases List.mem_append.mp hs with hs | hs
      · obtain ⟨m, hm, rfl⟩ := List.mem_map.mp hs
        exact fun c hc => okCaseChars_code c (upperChars_ok (fun c0 hc0 =>
          scanAll_forall (fun cs m0 r0 h => matchADOPT_chars h) _ m hm c0 hc0) c hc)
      · obtain ⟨m, hm, rfl⟩ := List.mem_map.mp hs
        exact fun c hc => okCaseChars_code c (upperChars_ok (fun c0 hc0 =>
          scanAll_forall (fun cs m0 r0 h => matchGENERIC_chars h) _ m hm c0 hc0) c hc)
    · obtain ⟨m, hm, rfl⟩ := List.mem_map.mp hs
      exact fun c hc =>
        scanAll_forall (fun cs m0 r0 h => matchJPTW_chars h) _ m hm c hc
  · obtain ⟨m, hm, rfl⟩ := List.mem_map.mp hs
    exact fun c hc => okCaseChars_code c (upperChars_ok (fun c0 hc0 =>
      scanAll_forall (fun cs m0 r0 h => matchTRAILING_chars h) _ m hm c0 hc0) c hc)

theorem mem_find_case_codes {t : Option String} {s : String} :
    s ∈ find_case_codes t ↔ s ∈ caseCodeValues t := by
  unfold find_case_codes
  rw [(List.perm_insertionSort pyStrLe (dedupKeepFirst (caseCodeValues t))).mem_iff]
  exact mem_dedupKeepFirst

theorem find_case_codes_chars {t : Option String} {s : String}
    (hs : s ∈ find_case_codes t) : ∀ c ∈ s.data, okCodeChar c :=
  caseCodeValues_chars (mem_find_case_codes.mp hs)

theorem nodup_find_case_codes (t : Option String) : (find_case_codes t).Nodup :=
  ((List.perm_insertionSort pyStrLe _).symm).nodup
    (nodup_dedupKeepFirst (caseCodeValues t))

theorem lowerC_inj_on_code {c1 c2 : Char} (h1 : okCodeChar c1) (h2 : okCodeChar c2)
    (heq : lowerC c1 = lowerC c2) : c1 = c2 := by
  have hA : ∀ x1 ∈ upperLatinChars, ∀ x2 ∈ upperLatinChars,
      lowerC x1 = lowerC x2 → x1 = x2 := by decide
  have hB : ∀ x ∈ upperLatinChars, lowerC x ∈ lowerLatinChars := by decide
  rcases okCodeChar_cases h1 with hu1 | ⟨hf1, hn1⟩
  · rcases okCodeChar_cases h2 with hu2 | ⟨hf2, hn2⟩
    · exact hA c1 hu1 c2 hu2 heq
    · have hmem := hB c1 hu1
      rw [heq, hf2] at hmem
      exact absurd hmem hn2
  · rcases okCodeChar_cases h2 with hu2 | ⟨hf2, hn2⟩
    · have hmem := hB c2 hu2
      rw [← heq, hf1] at hmem
      exact absurd hmem hn1
    · rw [hf1, hf2] at heq
      exact heq

theorem map_lowerC_inj :
    ∀ l1 l2 : List Char, (∀ c ∈ l1, okCodeChar c) → (∀ c ∈ l2, okCodeChar c) →
      l1.map lowerC = l2.map lowerC → l1 = l2 := by
  intro l1
  induction l1 with
  | nil =>
    intro l2 _ _ h
    cases l2 with
    | nil => rfl
    | cons c cs => exact absurd h (by simp)
  | cons c1 cs1 ih =>
    intro l2 h1 h2 h
    cases l2 with
    | nil => exact absurd h (by simp)
    | cons c2 cs2 =>
      simp only [List.map_cons, List.cons.injEq] at h
      have hc : c1 = c2 :=
        lowerC_inj_on_code (h1 c1 (List.mem_cons_self c1 cs1))
          (h2 c2 (List.mem_cons_self c2 cs2)) h.1
      have hcs : cs1 = cs2 :=
        ih cs2 (fun c hc0 => h1 c (List.mem_cons_of_mem c1 hc0))
          (fun c hc0 => h2 c (List.mem_cons_of_mem c2 hc0)) h.2
      rw [hc, hcs]

/-- The reference ordering of the spec claim: the canonical codes in
extraction order — rule registration order, then left-to-right match order
within each rule — deduplicated first-occurrence-first (spec sections 4.2
and 4.4).  This follows the spec wording, to be compared with the
`sorted(set(...))` result the code actually returns. -/
def extractionOrderCodes (text : Option String) : List String :=
  dedupKeepFirst (caseCodeValues text)

theorem mem_extractionOrderCodes {t : Option String} {s : String} :
    s ∈ extractionOrderCodes t ↔ s ∈ caseCodeValues t :=
  mem_dedupKeepFirst

theorem find_case_codesE_eq (t : Option String) :
    find_case_codesE t = Except.ok (find_case_codes t) := rfl

theorem lookup_mem_snd {α β : Type} [BEq α] :
    ∀ (l : List (α × β)) (k : α) (v : β), List.lookup k l = some v → v ∈ l.map Prod.snd := by
  intro l
  induction l with
  | nil => intro k v h; exact absurd h (by simp [List.lookup])
  | cons p ps ih =>
    intro k v h
    rw [List.lookup] at h
    split at h
    · simp only [Option.some.injEq] at h
      simp [h]
    · simp only [List.map_cons, List.mem_cons]
      exact Or.inr (ih k v h)

theorem titleAux_length : ∀ (b : Bool) (cs : List Char), (titleAux b cs).length = cs.length := by
  intro b cs
  induction cs generalizing b with
  | nil => rfl
  | cons c cs0 ih =>
    unfold titleAux
    split
    · simpa using ih _
    · simpa using ih _

theorem pyListLe_total : ∀ l1 l2 : List Char, pyListLe l1 l2 = true ∨ pyListLe l2 l1 = true := by
  intro l1
  induction l1 with
  | nil => intro l2; left; rfl
  | cons c1 t1 ih =>
    intro l2
    cases l2 with
    | nil => right; rfl
    | cons c2 t2 =>
      simp only [pyListLe, Bool.or_eq_true, Bool.and_eq_true, decide_eq_true_eq]
      rcases lt_trichotomy c1 c2 with h | h | h
      · exact Or.inl (Or.inl h)
      · rcases ih t2 with h2 | h2
        · exact Or.inl (Or.inr ⟨h, h2⟩)
        · exact Or.inr (Or.inr ⟨h.symm, h2⟩)
      · exact Or.inr (Or.inl h)

theorem pyListLe_trans :
    ∀ l1 l2 l3 : List Char, pyListLe l1 l2 = true → pyListLe l2 l3 = true →
      pyListLe l1 l3 = true := by
  intro l1
  induction l1 with
  | nil => intro l2 l3 _ _; rfl
  | cons c1 t1 ih =>
    intro l2 l3 h12 h23
    cases l2 with
    | nil => exact absurd h12 (by simp [pyListLe])
    | cons c2 t2 =>
      cases l3 with
      | nil => exact absurd h23 (by simp [pyListLe])
      | cons c3 t3 =>
        simp only [pyListLe, Bool.or_eq_true, Bool.and_eq_true, decide_eq_true_eq] at h12 h23 ⊢
        rcases h12 with h12 | ⟨rfl, h12⟩
        · rcases h23 with h23 | ⟨rfl, _⟩
          · exact Or.inl (lt_trans h12 h23)
          · exact Or.inl h12
        · rcases h23 with h23 | ⟨rfl, h23⟩
          · exact Or.inl h23
          · exact Or.inr ⟨rfl, ih t2 t3 h12 h23⟩

theorem pyListLt_of_le_of_ne :
    ∀ l1 l2 : List Char, pyListLe l1 l2 = true → l1 ≠ l2 → pyListLt l1 l2 = true := by
  intro l1
  induction l1 with
  | nil =>
    intro l2 _ hne
    cases l2 with
    | nil => exact absurd rfl hne
    | cons c2 t2 => rfl
  | cons c1 t1 ih =>
    intro l2 hle hne
    cases l2 with
    | nil => exact absurd hle (by simp [pyListLe])
    | cons c2 t2 =>
      simp only [pyListLe, Bool.or_eq_true, Bool.and_eq_true, decide_eq_true_eq] at hle
      simp only [pyListLt, Bool.or_eq_true, Bool.and_eq_true, decide_eq_true_eq]
      rcases hle with h | ⟨rfl, h⟩
      · exact Or.inl h
      · refine Or.inr ⟨rfl, ih t2 h ?_⟩
        intro hEq
        exact hne (by rw [hEq])

theorem sorted_le_find_case_codes (t : Option String) :
    (find_case_codes t).Sorted pyStrLe := by
  haveI : IsTotal String pyStrLe := ⟨fun a b => pyListLe_total a.data b.data⟩
  haveI : IsTrans String pyStrLe :=
    ⟨fun a b c hab hbc => pyListLe_trans a.data b.data c.data hab hbc⟩
  exact List.sorted_insertionSort pyStrLe _

theorem pyStrLt_of_le_of_ne {a b : String} (hle : pyStrLe a b) (hne : a ≠ b) : pyStrLt a b :=
  pyListLt_of_le_of_ne a.data b.data hle (fun h => hne (String.ext h))

theorem match_vendor_alias_ne_empty {tok : String} (h : stripChars tok.toList ≠ []) :
    match_vendor_alias tok ≠ ("") := by
  unfold match_vendor_alias
  cases hl : List.lookup (strOfChars (normalize_subject (some tok))) VENDOR_ALIASES with
  | some v =>
    have hall : ∀ v0 ∈ VENDOR_ALIASES.map Prod.snd, v0 ≠ ("") := by decide
    exact hall v (lookup_mem_snd _ _ _ hl)
  | none =>
    intro heq
    apply h
    have hnil : titleChars (stripChars tok.toList) = [] := congrArg String.data heq
    have hlen := congrArg List.length hnil
    rw [titleChars, titleAux_length] at hlen
    exact List.length_eq_zero.mp hlen

theorem match_site_alias_ne_empty {tok : String} (h : stripChars tok.toList ≠ []) :
    match_site_alias tok ≠ ("") := by
  unfold match_site_alias
  cases hl : List.lookup (strOfChars (normalize_subject (some tok))) SITE_ALIASES with
  | some v =>
    have hall : ∀ v0 ∈ SITE_ALIASES.map Prod.snd, v0 ≠ ("") := by decide
    exact hall v (lookup_mem_snd _ _ _ hl)
  | none =>
    intro heq
    apply h
    have hnil : upperChars (stripChars tok.toList) = [] := congrArg String.data heq
    have hlen := congrArg List.length hnil
    rw [upperChars, List.length_map] at hlen
    exact List.length_eq_zero.mp hlen

theorem extract_case_numbers_paren_mem (s : String) (g : List Char × List Char)
    (hg : g ∈ parenSubTokens (upperChars s.toList)) : fmtCM3 g ∈ extract_case_numbers s := by
  have hne : s.toList ≠ [] := by
    intro h0
    rw [h0] at hg
    simp [parenSubTokens, upperChars, scanAll, scanWith] at hg
  unfold extract_case_numbers
  rw [if_neg hne]
  refine (mem_foldl_addUnique _ _ _).mpr (Or.inr ?_)
  apply List.mem_append_left
  apply List.mem_append_left
  apply List.mem_append_right
  exact List.mem_map_of_mem fmtCM3 hg

/-!
The claims.
-/

/-- C1 counterexample: `find_case_codes` does not return the codes in
extraction order with first-occurrence deduplication — on a subject whose
`HVDC_ADOPT` matches occur in descending lexicographic order, the function
returns them ascending (it sorts the deduplicated set), while the claimed
extraction order keeps the occurrence order. -/
theorem C1_counterexample :
    find_case_codes (some ("hvdc-adopt-zz-999 hvdc-adopt-aa-111")) ≠
      extractionOrderCodes (some ("hvdc-adopt-zz-999 hvdc-adopt-aa-111")) := by decide

/-- C1 (amended): for every input, `find_case_codes` returns exactly the
values of the extraction-order first-occurrence deduplication — one
occurrence per duplicated value — but ordered ascending by the Python
string order rather than by extraction order. -/
theorem C1_amended :
    ∀ t : Option String,
      (find_case_codes t).Nodup ∧ (find_case_codes t).Sorted pyStrLe ∧
      (∀ v, v ∈ find_case_codes t ↔ v ∈ extractionOrderCodes t) :=
  fun t =>
    ⟨nodup_find_case_codes t, sorted_le_find_case_codes t,
      fun _ => mem_find_case_codes.trans mem_extractionOrderCodes.symm⟩

/-- C2: for the input `"(HE-0427, HE-0428)"`, `extract_case_numbers` returns
both `"HVDC-ADOPT-HE-0427"` and `"HVDC-ADOPT-HE-0428"` as distinct entries;
and in general every `<VENDOR>-<NUMBER>` sub-token found inside a
parenthesized group expands independently into a member
`HVDC-ADOPT-<VENDOR>-<NUMBER>` of the result. -/
theorem C2_paren_expansion :
    extract_case_numbers ("(HE-0427, HE-0428)") =
      [("HVDC-ADOPT-HE-0427"), ("HVDC-ADOPT-HE-0428")] ∧
    ∀ (s : String) (g : List Char × List Char),
      g ∈ parenSubTokens (upperChars s.toList) → fmtCM3 g ∈ extract_case_numbers s :=
  ⟨by decide, extract_case_numbers_paren_mem⟩

/-- C2 witness: the sub-token `HE-0427` of the example subject is expanded
into a member of the result. -/
theorem C2_paren_expansion_witness :
    fmtCM3 ((("HE").toList, ("0427").toList)) ∈ extract_case_numbers ("(HE-0427, HE-0428)") :=
  C2_paren_expansion.2 ("(HE-0427, HE-0428)") ((("HE").toList, ("0427").toList)) (by decide)

/-- C3: for the input `"PRL-O-046-O4(HE-0486) - status"`, the spec-modelled
extractor returns both the literal PRL token (with its parenthetical suffix
kept in the single token) and the separately expanded
`"HVDC-ADOPT-HE-0486"`. -/
theorem C3_prl_token :
    ("PRL-O-046-O4(HE-0486)") ∈ extract_cases_spec ("PRL-O-046-O4(HE-0486) - status") ∧
    ("HVDC-ADOPT-HE-0486") ∈ extract_cases_spec ("PRL-O-046-O4(HE-0486) - status") := by decide

/-- C4: `find_case_codes` of `None` and of the empty string is the empty
list, and for every input the guarded variant returns `Except.ok` — the
`PatternMatchError` branch is never taken, so the call never raises. -/
theorem C4_empty_and_total :
    find_case_codes none = [] ∧ find_case_codes (some ("")) = [] ∧
    ∀ t : Option String, (find_case_codesE t).isOk = true :=
  ⟨by decide, by decide, fun t => by rw [find_case_codesE_eq]; rfl⟩

/-- C5: every `find_case_codes` result is duplicate-free under
case-insensitive string equality (no two entries agree after
lower-casing), and the doubled-code example keeps exactly one occurrence of
`"HVDC-ADOPT-SCT-0136"`. -/
theorem C5_no_ci_duplicates :
    (∀ t : Option String,
      (find_case_codes t).Pairwise (fun a b => a.data.map lowerC ≠ b.data.map lowerC)) ∧
    (find_case_codes (some ("HVDC-ADOPT-SCT-0136 HVDC-ADOPT-SCT-0136 / GRM-123"))).count
      ("HVDC-ADOPT-SCT-0136") = 1 := by
  constructor
  · intro t
    refine List.Pairwise.imp_of_mem ?_ (nodup_find_case_codes t)
    intro a b ha hb hne heq
    exact hne (String.ext (map_lowerC_inj a.data b.data
      (find_case_codes_chars ha) (find_case_codes_chars hb) heq))
  · decide

/-- C6 counterexample: the output alphabet is not limited to upper-case
letters, digits and hyphens — the JPTW/GRM pair value contains a slash. -/
theorem C6_counterexample :
    ¬ (∀ s ∈ find_case_codes (some ("jptw-71 / grm-123")), ∀ c ∈ s.data,
        c ∈ upperLatinChars ∨ c ∈ digitChars ∨ c = '-') := by decide

/-- C6 (amended): every character of every `find_case_codes` output is an
upper-case ASCII letter, a Unicode decimal digit (ASCII digits everywhere;
non-ASCII decimal digits can appear, but only in the `\d` digit groups of
the `JPTW-n/GRM-m` pair form), a hyphen, or the slash of the pair form; no
output character is whitespace, so entries carry no leading or trailing
whitespace. -/
theorem C6_amended :
    (∀ (t : Option String) (s : String), s ∈ find_case_codes t →
      ∀ c ∈ s.data, okCodeChar c) ∧
    (∀ c : Char, okCodeChar c → isSpaceC c = false) :=
  ⟨fun _ _ hs => find_case_codes_chars hs, fun _ h => okCodeChar_not_space h⟩

/-- C6 witness: the claim instantiated at a JPTW/GRM subject carrying
Arabic-Indic digits, which Python `\d` matches and which reach the output. -/
theorem C6_amended_witness : okCodeChar '٧' ∧ isSpaceC '٧' = false :=
  ⟨C6_amended.1 (some ("jptw-٧ / grm-٣")) ("JPTW-٧/GRM-٣") (by decide) '٧' (by decide),
   C6_amended.2 '٧' (by decide)⟩

/-- C7 counterexample: `match_vendor_alias` does not return a non-empty
string for every token — the empty token falls through the table and
title-cases to the empty string. -/
theorem C7_counterexample : ¬ (∀ tok : String, match_vendor_alias tok ≠ ("")) :=
  fun h => h ("") (by decide)

/-- C7 (amended): known aliases map to their canonical display names
(`"he"` to `"Hitachi Energy"`), unknown tokens fall back to the title-cased
(vendor) or upper-cased (site) trimmed input, and the result is non-empty
for every token whose trimmed form is non-empty. -/
theorem C7_amended :
    match_vendor_alias ("he") = ("Hitachi Energy") ∧
    match_vendor_alias ("unknownxyz") = ("Unknownxyz") ∧
    ∀ tok : String, stripChars tok.toList ≠ [] →
      match_vendor_alias tok ≠ ("") ∧ match_site_alias tok ≠ ("") :=
  ⟨by decide, by decide,
    fun _ h => ⟨match_vendor_alias_ne_empty h, match_site_alias_ne_empty h⟩⟩

/-- C7 witness: the amended claim instantiated at a non-blank token. -/
theorem C7_amended_witness :
    match_vendor_alias ("sct") ≠ ("") ∧ match_site_alias ("sct") ≠ ("") :=
  C7_amended.2.2 ("sct") (by decide)

/-- C8 counterexample: `score_similarity` is not symmetric — difflib's
longest-match tie-breaking prefers the earliest block of its first
argument, so `("pqwz", "qzvp")` scores `1/4` one way and `1/2` the other. -/
theorem C8_counterexample :
    score_similarity ("pqwz") ("qzvp") ≠ score_similarity ("qzvp") ("pqwz") := by
  have e1 : score_similarity ("pqwz") ("qzvp") = 1 / 4 := by
    have hm : matchTotal (normalize_subject (some ("pqwz"))) (normalize_subject (some ("qzvp")))
        ((normalize_subject (some ("pqwz"))).length +
          (normalize_subject (some ("qzvp"))).length + 1)
        0 (normalize_subject (some ("pqwz"))).length
        0 (normalize_subject (some ("qzvp"))).length = 1 := by decide
    have h1 : (normalize_subject (some ("pqwz"))).length = 4 := by decide
    have h2 : (normalize_subject (some ("qzvp"))).length = 4 := by decide
    unfold score_similarity ratio
    rw [hm, h1, h2]
    norm_num [round4, round_eq]
  have e2 : score_similarity ("qzvp") ("pqwz") = 1 / 2 := by
    have hm : matchTotal (normalize_subject (some ("qzvp"))) (normalize_subject (some ("pqwz")))
        ((normalize_subject (some ("qzvp"))).length +
          (normalize_subject (some ("pqwz"))).length + 1)
        0 (normalize_subject (some ("qzvp"))).length
        0 (normalize_subject (some ("pqwz"))).length = 2 := by decide
    have h1 : (normalize_subject (some ("qzvp"))).length = 4 := by decide
    have h2 : (normalize_subject (some ("pqwz"))).length = 4 := by decide
    unfold score_similarity ratio
    rw [hm, h1, h2]
    norm_num [round4, round_eq]
  rw [e1, e2]
  norm_num

/-- C8 (amended): `score_similarity` agrees under argument swap whenever the
two normalized inputs coincide (in general the function is asymmetric, as
the counterexample shows). -/
theorem C8_amended :
    ∀ a b : String, normalize_subject (some a) = normalize_subject (some b) →
      score_similarity a b = score_similarity b a := by
  intro a b h
  unfold score_similarity
  rw [h]

/-- C8 witness: the amended claim at two inputs with equal normal forms. -/
theorem C8_amended_witness :
    score_similarity ("HVDC") (" hvdc ") = score_similarity (" hvdc ") ("HVDC") :=
  C8_amended ("HVDC") (" hvdc ") (by decide)

/-- C9: for every input, the `find_case_codes` result is strictly ascending
in the Python string order (code-point lexicographic), i.e. the function
returns the deduplicated codes in sorted order. -/
theorem C9_sorted : ∀ t : Option String, (find_case_codes t).Sorted pyStrLt := by
  intro t
  exact ((sorted_le_find_case_codes t).and (nodup_find_case_codes t)).imp
    (fun h => pyStrLt_of_le_of_ne h.1 h.2)

/-- C10: the registry contains all four keys `find_case_codes` looks up, so
the guarded variant returns `Except.ok` of the plain result on every input
— the `PatternMatchError` branch is unreachable. -/
theorem C10_registry_total :
    (List.lookup ("HVDC_ADOPT") COMPILED_PATTERNS).isSome = true ∧
    (List.lookup ("HVDC_GENERIC") COMPILED_PATTERNS).isSome = true ∧
    (List.lookup ("JPTW_GRM") COMPILED_PATTERNS).isSome = true ∧
    (List.lookup ("TRAILING") COMPILED_PATTERNS).isSome = true ∧
    ∀ t : Option String, find_case_codesE t = Except.ok (find_case_codes t) :=
  ⟨rfl, rfl, rfl, rfl, find_case_codesE_eq⟩
